import Mathlib

/-!
Shallow embedding of the `rum` Universal Machine interpreter
(`src/rum/src/states.rs`, `src/rum/src/rumdecoder.rs`, `src/rum/src/rumload.rs`).

Machine words (`u32`) are modelled as `Nat` with explicit `% 2 ^ 32` where the
Rust code uses wrapping arithmetic.  The segment table `Vec<Vec<u32>>` becomes
`List (List Nat)`; `Vec::push` appends at the tail and `Vec::pop` removes the
tail, so the free list keeps the source's order.  Operations that can panic or
hit undefined behaviour in Rust (unchecked indexing, division by zero,
`u8::try_from` failure) return `Option`.  Standard input and output are
modelled as explicit byte streams threaded through the dispatcher; the byte
sequence written by `print!("{}", val as char)` is the UTF-8 encoding of the
scalar value `val`, which is two bytes when `128 ≤ val ≤ 255`.
-/

namespace Rum

/-- The machine state of `struct State` in `states.rs`: eight registers, the
segment table (`allocated_memory`), the free list (`freed_memory`) and the
program counter. -/
@[ext]
structure State where
  registers : Fin 8 → Nat
  allocated_memory : List (List Nat)
  freed_memory : List Nat
  prog_counter : Nat

/-- Rust `State::new`: all registers zero, empty table, empty free list, PC zero. -/
def State.new : State :=
  { registers := fun _ => 0
    allocated_memory := []
    freed_memory := []
    prog_counter := 0 }

/-- Rust `State::boot_up_instructions`: push the instruction words onto the
segment table. -/
def boot_up_instructions (s : State) (instruction_set : List Nat) : State :=
  { s with allocated_memory := s.allocated_memory ++ [instruction_set] }

/-- Rust `State::get_instruction`: read the word of segment zero at the program
counter, then advance the program counter.  The Rust code uses
`get_unchecked`, so an out-of-range access is undefined behaviour: `none`. -/
def get_instruction (s : State) : Option (Nat × State) :=
  match s.allocated_memory.get? 0 with
  | none => none
  | some seg0 =>
    match seg0.get? s.prog_counter with
    | none => none
    | some inst => some (inst, { s with prog_counter := s.prog_counter + 1 })

/-- Rust `State::cmov` (opcode 0). -/
def cmov (s : State) (a b c : Fin 8) : State :=
  if s.registers c ≠ 0 then
    { s with registers := Function.update s.registers a (s.registers b) }
  else s

/-- Rust `State::seg_load` (opcode 1); `get_unchecked` out of range is `none`. -/
def seg_load (s : State) (a b c : Fin 8) : Option State :=
  match s.allocated_memory.get? (s.registers b) with
  | none => none
  | some seg =>
    match seg.get? (s.registers c) with
    | none => none
    | some w => some { s with registers := Function.update s.registers a w }

/-- Rust `State::seg_store` (opcode 2); a panicking index is `none`. -/
def seg_store (s : State) (a b c : Fin 8) : Option State :=
  match s.allocated_memory.get? (s.registers a) with
  | none => none
  | some seg =>
    if s.registers b < seg.length then
      some { s with
        allocated_memory :=
          s.allocated_memory.set (s.registers a) (seg.set (s.registers b) (s.registers c)) }
    else none

/-- Rust `State::add` (opcode 3): `wrapping_add` on `u32`. -/
def add (s : State) (a b c : Fin 8) : State :=
  { s with
    registers :=
      Function.update s.registers a ((s.registers b + s.registers c) % 2 ^ 32) }

/-- Rust `State::mul` (opcode 4): `wrapping_mul` on `u32`. -/
def mul (s : State) (a b c : Fin 8) : State :=
  { s with
    registers :=
      Function.update s.registers a ((s.registers b * s.registers c) % 2 ^ 32) }

/-- Rust `State::div` (opcode 5): unsigned division; division by zero panics. -/
def div (s : State) (a b c : Fin 8) : Option State :=
  if s.registers c = 0 then none
  else
    some { s with
      registers := Function.update s.registers a (s.registers b / s.registers c) }

/-- Rust `State::b_nand` (opcode 6): `!(b & c)`; bitwise NOT of a `u32` is XOR with
the all-ones mask `2 ^ 32 - 1`. -/
def b_nand (s : State) (a b c : Fin 8) : State :=
  { s with
    registers :=
      Function.update s.registers a
        ((s.registers b &&& s.registers c) ^^^ (2 ^ 32 - 1)) }

/-- Rust `State::map_seg` (opcode 8): a zero-filled segment of length `R[C]` is
installed at the identifier popped from the free list's tail, or appended at
the table's tail when the free list is empty; the identifier is written to
`R[B]`.  In the append branch the source computes
`(self.allocated_memory.len() - 1) as u32`: the `as u32` cast truncates the
new tail index modulo `2 ^ 32`.  The popped identifier is already a `u32` and
is stored without a cast.  Writing into a popped slot panics (`none`) if the
slot index is out of the table's range. -/
def map_seg (s : State) (b c : Fin 8) : Option State :=
  let new_allocation := List.replicate (s.registers c) 0
  match s.freed_memory.getLast? with
  | some idx =>
    if idx < s.allocated_memory.length then
      some { s with
        allocated_memory := s.allocated_memory.set idx new_allocation
        freed_memory := s.freed_memory.dropLast
        registers := Function.update s.registers b idx }
    else none
  | none =>
    some { s with
      allocated_memory := s.allocated_memory ++ [new_allocation]
      registers := Function.update s.registers b
        (((s.allocated_memory ++ [new_allocation]).length - 1) % 2 ^ 32) }

/-- Rust `State::unmap_seg` (opcode 9): clear the segment at index `R[C]` and push
that index on the free list.  There is no precondition check; an index beyond
the table's length panics (`none`). -/
def unmap_seg (s : State) (c : Fin 8) : Option State :=
  let freed_location := s.registers c
  if freed_location < s.allocated_memory.length then
    some { s with
      allocated_memory := s.allocated_memory.set freed_location []
      freed_memory := s.freed_memory ++ [freed_location] }
  else none

/-- The byte sequence `print!` writes for a `char` with scalar value `v < 256`:
its UTF-8 encoding, a single byte below 128 and two bytes from 128 to 255. -/
def charUtf8 (v : Nat) : List Nat :=
  if v < 128 then [v] else [192 + v / 64, 128 + v % 64]

/-- Rust `State::output` (opcode 10): `u8::try_from` succeeds iff `R[C] ≤ 255`
(otherwise panic, `none`), then `print!("{}", val as char)` writes the UTF-8
encoding of the scalar value.  Returns the bytes written. -/
def output (s : State) (c : Fin 8) : Option (State × List Nat) :=
  if s.registers c ≤ 255 then some (s, charUtf8 (s.registers c)) else none

/-- Rust `State::input` (opcode 11): take one byte from standard input; at
end-of-input store `!0_u32 = 2 ^ 32 - 1`.  Returns the remaining stream. -/
def input (s : State) (c : Fin 8) (stdin : List Nat) : State × List Nat :=
  match stdin with
  | [] => ({ s with registers := Function.update s.registers c (2 ^ 32 - 1) }, [])
  | byte :: rest =>
    ({ s with registers := Function.update s.registers c byte }, rest)

/-- Rust `State::load_prog` (opcode 12): when `R[B] = 0` only the program counter
is assigned; otherwise segment `R[B]` is cloned over segment zero and the
program counter is assigned.  An out-of-range source index panics (`none`). -/
def load_prog (s : State) (b c : Fin 8) : Option State :=
  let location := s.registers b
  if location = 0 then
    some { s with prog_counter := s.registers c }
  else
    match s.allocated_memory.get? location with
    | none => none
    | some seg =>
      some { s with
        allocated_memory := s.allocated_memory.set 0 seg
        prog_counter := s.registers c }

/-- Rust `State::load_val` (opcode 13). -/
def load_val (s : State) (location : Fin 8) (val : Nat) : State :=
  { s with registers := Function.update s.registers location val }

/-! ### The instruction decoder (`rumdecoder.rs`) -/

/-- Rust `struct Field`: a bit field of an instruction word. -/
structure Field where
  width : Nat
  lsb : Nat

/-- Rust `mask(bits) = (1 << bits) - 1`. -/
def mask (bits : Nat) : Nat := (1 <<< bits) - 1

/-- Rust `get(field, instruction) = (instruction >> field.lsb) & mask(field.width)`. -/
def get (f : Field) (instruction : Nat) : Nat :=
  (instruction >>> f.lsb) &&& mask f.width

/-- Register A field. -/
def RA : Field := { width := 3, lsb := 6 }

/-- Register B field. -/
def RB : Field := { width := 3, lsb := 3 }

/-- Register C field. -/
def RC : Field := { width := 3, lsb := 0 }

/-- Register field of the load-value instruction. -/
def RL : Field := { width := 3, lsb := 25 }

/-- Load-value immediate field. -/
def VL : Field := { width := 25, lsb := 0 }

/-- Opcode field. -/
def OP : Field := { width := 4, lsb := 28 }

/-- A 3-bit register field value as an index into the register file (the
value of a width-3 `get` is below 8, so the reduction is the identity). -/
def regIdx (n : Nat) : Fin 8 := ⟨n % 8, Nat.mod_lt n (by decide)⟩

/-- Outcome of one trip through `decode_inst`: a next state together with the
remaining input stream and the extended output stream, an orderly halt
(opcode 7, `process::exit(0)`), or a panic / undefined behaviour. -/
inductive StepResult where
  | next (s : State) (stdin stdout : List Nat)
  | halted (stdout : List Nat)
  | error

/-- Rust `decode_inst`: fetch the word at the program counter (advancing it),
extract the opcode and dispatch to the operation, `From<u32> for Opcode`
panicking on values 14 and 15.  Standard input and output are threaded as
explicit byte streams. -/
def decode_inst (s : State) (stdin stdout : List Nat) : StepResult :=
  match get_instruction s with
  | none => StepResult.error
  | some (inst, s1) =>
    match get OP inst with
    | 0 =>
      StepResult.next (cmov s1 (regIdx (get RA inst)) (regIdx (get RB inst))
        (regIdx (get RC inst))) stdin stdout
    | 1 =>
      match seg_load s1 (regIdx (get RA inst)) (regIdx (get RB inst))
          (regIdx (get RC inst)) with
      | some s2 => StepResult.next s2 stdin stdout
      | none => StepResult.error
    | 2 =>
      match seg_store s1 (regIdx (get RA inst)) (regIdx (get RB inst))
          (regIdx (get RC inst)) with
      | some s2 => StepResult.next s2 stdin stdout
      | none => StepResult.error
    | 3 =>
      StepResult.next (add s1 (regIdx (get RA inst)) (regIdx (get RB inst))
        (regIdx (get RC inst))) stdin stdout
    | 4 =>
      StepResult.next (mul s1 (regIdx (get RA inst)) (regIdx (get RB inst))
        (regIdx (get RC inst))) stdin stdout
    | 5 =>
      match div s1 (regIdx (get RA inst)) (regIdx (get RB inst))
          (regIdx (get RC inst)) with
      | some s2 => StepResult.next s2 stdin stdout
      | none => StepResult.error
    | 6 =>
      StepResult.next (b_nand s1 (regIdx (get RA inst)) (regIdx (get RB inst))
        (regIdx (get RC inst))) stdin stdout
    | 7 =>
      StepResult.halted stdout
    | 8 =>
      match map_seg s1 (regIdx (get RB inst)) (regIdx (get RC inst)) with
      | some s2 => StepResult.next s2 stdin stdout
      | none => StepResult.error
    | 9 =>
      match unmap_seg s1 (regIdx (get RC inst)) with
      | some s2 => StepResult.next s2 stdin stdout
      | none => StepResult.error
    | 10 =>
      match output s1 (regIdx (get RC inst)) with
      | some (s2, bytes) => StepResult.next s2 stdin (stdout ++ bytes)
      | none => StepResult.error
    | 11 =>
      let p := input s1 (regIdx (get RC inst)) stdin
      StepResult.next p.1 p.2 stdout
    | 12 =>
      match load_prog s1 (regIdx (get RB inst)) (regIdx (get RC inst)) with
      | some s2 => StepResult.next s2 stdin stdout
      | none => StepResult.error
    | 13 =>
      StepResult.next (load_val s1 (regIdx (get RL inst)) (get VL inst))
        stdin stdout
    | _ => StepResult.error

/-! ### The loader (`rumload.rs`) -/

/-- Rust `chunks_exact(4)`: the consecutive 4-byte chunks, dropping a shorter
remainder. -/
def chunksExact4 : List Nat → List (List Nat)
  | b0 :: b1 :: b2 :: b3 :: rest => [b0, b1, b2, b3] :: chunksExact4 rest
  | _ => []

/-- Rust `u32::from_be_bytes` on a 4-byte chunk. -/
def from_be_bytes : List Nat → Nat
  | [b0, b1, b2, b3] => ((b0 * 256 + b1) * 256 + b2) * 256 + b3
  | _ => 0

/-- The pure part of `rumload::load`: the byte buffer read from the file or
standard input, turned into big-endian 32-bit words. -/
def load (buf : List Nat) : List Nat :=
  (chunksExact4 buf).map from_be_bytes

/-! ### Example states used to instantiate the theorems -/

/-- A state whose register 1 holds 5, with a three-word segment zero. -/
def exA : State :=
  { registers := fun i => if i = 1 then 5 else 0
    allocated_memory := [[10, 11, 12]]
    freed_memory := []
    prog_counter := 0 }

/-- A state with an empty free list and register 1 holding 2. -/
def exB1 : State :=
  { registers := fun i => if i = 1 then 2 else 0
    allocated_memory := [[1], [2], [3]]
    freed_memory := []
    prog_counter := 0 }

/-- A state whose free list tail is 2 and register 1 holds 2. -/
def exB2 : State :=
  { registers := fun i => if i = 1 then 2 else 0
    allocated_memory := [[1], [2], [3]]
    freed_memory := [4, 2]
    prog_counter := 0 }

/-- A state whose segment table already has `2 ^ 32` slots (all empty) and an
empty free list; its registers are all zero. -/
def exHuge : State :=
  { registers := fun _ => 0
    allocated_memory := List.replicate (2 ^ 32) []
    freed_memory := []
    prog_counter := 0 }

/-- A state whose register 3 holds the live identifier 1. -/
def exC : State :=
  { registers := fun i => if i = 3 then 1 else 0
    allocated_memory := [[9, 9], [7]]
    freed_memory := []
    prog_counter := 0 }

/-! ### Helper lemmas -/

theorem cmov_prog_counter (s : State) (a b c : Fin 8) :
    (cmov s a b c).prog_counter = s.prog_counter := by
  unfold cmov
  split <;> rfl

theorem seg_load_prog_counter {s s' : State} {a b c : Fin 8}
    (h : seg_load s a b c = some s') : s'.prog_counter = s.prog_counter := by
  unfold seg_load at h
  split at h
  · exact absurd h (by simp)
  · split at h
    · exact absurd h (by simp)
    · cases h
      rfl

theorem seg_store_prog_counter {s s' : State} {a b c : Fin 8}
    (h : seg_store s a b c = some s') : s'.prog_counter = s.prog_counter := by
  unfold seg_store at h
  split at h
  · exact absurd h (by simp)
  · split at h
    · cases h
      rfl
    · exact absurd h (by simp)

theorem div_prog_counter {s s' : State} {a b c : Fin 8}
    (h : div s a b c = some s') : s'.prog_counter = s.prog_counter := by
  unfold div at h
  split at h
  · exact absurd h (by simp)
  · cases h
    rfl

theorem map_seg_prog_counter {s s' : State} {b c : Fin 8}
    (h : map_seg s b c = some s') : s'.prog_counter = s.prog_counter := by
  unfold map_seg at h
  split at h
  · split at h
    · cases h
      rfl
    · exact absurd h (by simp)
  · cases h
    rfl

theorem unmap_seg_prog_counter {s s' : State} {c : Fin 8}
    (h : unmap_seg s c = some s') : s'.prog_counter = s.prog_counter := by
  unfold unmap_seg at h
  dsimp only at h
  split at h
  · cases h
    rfl
  · exact absurd h (by simp)

theorem output_state_eq {s s2 : State} {c : Fin 8} {bytes : List Nat}
    (h : output s c = some (s2, bytes)) : s2 = s := by
  unfold output at h
  split at h
  · cases h
    rfl
  · exact absurd h (by simp)

theorem input_prog_counter (s : State) (c : Fin 8) (stdin : List Nat) :
    (input s c stdin).1.prog_counter = s.prog_counter := by
  unfold input
  cases stdin <;> rfl

theorem input_registers (s : State) (c : Fin 8) (stdin : List Nat) :
    ∃ v, (input s c stdin).1.registers = Function.update s.registers c v := by
  unfold input
  cases stdin <;> exact ⟨_, rfl⟩

theorem load_prog_prog_counter {s s' : State} {b c : Fin 8}
    (h : load_prog s b c = some s') : s'.prog_counter = s.registers c := by
  unfold load_prog at h
  dsimp only at h
  split at h
  · cases h
    rfl
  · split at h
    · exact absurd h (by simp)
    · cases h
      rfl

theorem get_instruction_of_fetch {s : State} {seg0 : List Nat} {w : Nat}
    (hseg : s.allocated_memory.get? 0 = some seg0)
    (hw : seg0.get? s.prog_counter = some w) :
    get_instruction s = some (w, { s with prog_counter := s.prog_counter + 1 }) := by
  unfold get_instruction
  rw [hseg]
  dsimp only
  rw [hw]

/-! ### Theorems -/

/-- A state whose registers 1 and 2 hold 5 and 7, with a three-instruction
segment zero: Add, Multiply and NAND over registers 0, 1, 2. -/
def exW : State :=
  { registers := fun i => if i = 1 then 5 else if i = 2 then 7 else 0
    allocated_memory := [[805306378, 1073741834, 1610612746]]
    freed_memory := []
    prog_counter := 0 }

/-- The state `exW` advanced to program counter 1. -/
def exW1 : State := { exW with prog_counter := 1 }

/-- The state `exW` advanced to program counter 2. -/
def exW2 : State := { exW with prog_counter := 2 }

/-- The state `exW` advanced to program counter 3. -/
def exW3 : State := { exW with prog_counter := 3 }

/-- A state whose register 2 holds 200. -/
def exD : State :=
  { registers := fun i => if i = 2 then 200 else 0
    allocated_memory := [[7]]
    freed_memory := []
    prog_counter := 0 }

/-- A state whose register 2 holds 300. -/
def exE : State :=
  { registers := fun i => if i = 2 then 300 else 0
    allocated_memory := [[7]]
    freed_memory := []
    prog_counter := 0 }

/-- A state whose register 2 holds 65. -/
def exF : State :=
  { registers := fun i => if i = 2 then 65 else 0
    allocated_memory := [[7]]
    freed_memory := []
    prog_counter := 0 }

/-- C1: executing opcode 12 (Load Program) when `R[B]` holds 0 leaves the
contents of segment zero (indeed the whole segment table, free list and
registers) unchanged and only assigns the program counter the value of
`R[C]`; no copy of any segment is performed. -/
theorem load_prog_source_zero_only_branches (s : State) (b c : Fin 8)
    (h : s.registers b = 0) :
    load_prog s b c = some { s with prog_counter := s.registers c } := by
  unfold load_prog
  simp [h]

/-- Witness for C1 at the concrete state `exA`. -/
theorem load_prog_source_zero_only_branches_witness :
    exA.registers 0 = 0 ∧
      load_prog exA 0 1 = some { exA with prog_counter := exA.registers 1 } :=
  ⟨rfl, load_prog_source_zero_only_branches exA 0 1 rfl⟩

/-- Counterexample for C2 as stated: on a table that already has `2 ^ 32`
slots and an empty free list, Map Segment appends at the tail but stores
`(2 ^ 32 + 1 - 1) % 2 ^ 32 = 0` in the destination register — not the new
tail index `2 ^ 32` the claim asserts for every machine state. -/
theorem map_seg_wrap_counterexample :
    exHuge.freed_memory = [] ∧
      map_seg exHuge 0 1 = some { exHuge with
        allocated_memory := exHuge.allocated_memory ++ [List.replicate (exHuge.registers 1) 0]
        registers := Function.update exHuge.registers 0 0 } ∧
      Function.update exHuge.registers 0 0 ≠
        Function.update exHuge.registers 0 exHuge.allocated_memory.length := by
  have hlen : exHuge.allocated_memory.length = 2 ^ 32 :=
    List.length_replicate _ _
  refine ⟨rfl, ?_, ?_⟩
  · have hfl : exHuge.freed_memory.getLast? = none := rfl
    unfold map_seg
    rw [hfl]
    dsimp only
    have hval : ((exHuge.allocated_memory ++
        [List.replicate (exHuge.registers 1) 0]).length - 1) % 2 ^ 32 = 0 := by
      rw [List.length_append, hlen]
      norm_num
    rw [hval]
  · intro hup
    have h0 := congrFun hup 0
    rw [Function.update_same, Function.update_same, hlen] at h0
    exact absurd h0 (by norm_num)

/-- C2 (amended): opcode 8 (Map Segment) installs a segment of exactly `R[C]`
words all equal to zero: at the tail of the free list (popping it) when the
free list is non-empty, or at the new tail index of the segment table when
the free list is empty; the identifier stored in `R[B]` is, in the append
branch, the new tail index reduced modulo `2 ^ 32` (the Rust `as u32` cast),
which equals the new tail index whenever the table has fewer than `2 ^ 32`
slots. -/
theorem map_seg_spec (s : State) (b c : Fin 8) :
    (s.freed_memory = [] →
      map_seg s b c = some { s with
        allocated_memory := s.allocated_memory ++ [List.replicate (s.registers c) 0]
        registers := Function.update s.registers b (s.allocated_memory.length % 2 ^ 32) }) ∧
    (s.freed_memory = [] → s.allocated_memory.length < 2 ^ 32 →
      map_seg s b c = some { s with
        allocated_memory := s.allocated_memory ++ [List.replicate (s.registers c) 0]
        registers := Function.update s.registers b s.allocated_memory.length }) ∧
    (∀ rest id, s.freed_memory = rest ++ [id] → id < s.allocated_memory.length →
      map_seg s b c = some { s with
        allocated_memory := s.allocated_memory.set id (List.replicate (s.registers c) 0)
        freed_memory := rest
        registers := Function.update s.registers b id }) := by
  refine ⟨fun h => ?_, fun h hlt => ?_, fun rest id h hlt => ?_⟩
  · unfold map_seg
    rw [h]
    simp
  · have e : ((s.allocated_memory ++ [List.replicate (s.registers c) 0]).length - 1) % 2 ^ 32
        = s.allocated_memory.length := by
      rw [List.length_append, List.length_singleton, Nat.add_sub_cancel,
        Nat.mod_eq_of_lt hlt]
    unfold map_seg
    rw [h]
    dsimp only
    rw [e]
    rfl
  · unfold map_seg
    rw [h]
    simp [List.getLast?_concat, List.dropLast_concat, hlt]

/-- Witness for C2: the empty-free-list branch at `exB1` (three slots, well
below `2 ^ 32`, so the stored identifier is exactly the new tail index 3) and
the pop branch at `exB2` (identifier 2 is popped and reused). -/
theorem map_seg_spec_witness :
    (exB1.freed_memory = [] ∧ exB1.allocated_memory.length < 2 ^ 32 ∧
      map_seg exB1 0 1 = some { exB1 with
        allocated_memory := exB1.allocated_memory ++ [List.replicate (exB1.registers 1) 0]
        registers := Function.update exB1.registers 0 exB1.allocated_memory.length }) ∧
    (exB1.freed_memory = [] ∧
      map_seg exB1 0 1 = some { exB1 with
        allocated_memory := exB1.allocated_memory ++ [List.replicate (exB1.registers 1) 0]
        registers := Function.update exB1.registers 0
          (exB1.allocated_memory.length % 2 ^ 32) }) ∧
    (exB2.freed_memory = [4] ++ [2] ∧ 2 < exB2.allocated_memory.length ∧
      map_seg exB2 0 1 = some { exB2 with
        allocated_memory := exB2.allocated_memory.set 2 (List.replicate (exB2.registers 1) 0)
        freed_memory := [4]
        registers := Function.update exB2.registers 0 2 }) :=
  ⟨⟨rfl, by decide, (map_seg_spec exB1 0 1).2.1 rfl (by decide)⟩,
   ⟨rfl, (map_seg_spec exB1 0 1).1 rfl⟩,
   ⟨rfl, by decide, (map_seg_spec exB2 0 1).2.2 [4] 2 rfl (by decide)⟩⟩

/-- C3: for a live identifier `id ≠ 0`, Unmap Segment on `id` immediately
followed by Map Segment (no intervening allocation or free) stores exactly
`id` back in the destination register of the Map (LIFO reuse). -/
theorem unmap_then_map_reuses_id (s : State) (c b' c' : Fin 8) (id : Nat)
    (hid : s.registers c = id) (h0 : id ≠ 0)
    (hlive : id < s.allocated_memory.length ∧ id ∉ s.freed_memory) :
    ∃ s₁ s₂, unmap_seg s c = some s₁ ∧ map_seg s₁ b' c' = some s₂ ∧
      s₂.registers b' = id := by
  obtain ⟨hlt, -⟩ := hlive
  refine ⟨{ s with
      allocated_memory := s.allocated_memory.set id []
      freed_memory := s.freed_memory ++ [id] }, ?_, ?_, ?_, ?_⟩
  · exact { s with
      allocated_memory := (s.allocated_memory.set id []).set id
        (List.replicate (s.registers c') 0)
      freed_memory := s.freed_memory
      registers := Function.update s.registers b' id }
  · unfold unmap_seg
    rw [hid]
    simp [hlt]
  · unfold map_seg
    simp [List.getLast?_concat, List.dropLast_concat, List.length_set, hlt]
  · simp [Function.update_same]

/-- Witness for C3 at the concrete state `exC` (identifier 1 live in a
two-segment table). -/
theorem unmap_then_map_reuses_id_witness :
    exC.registers 3 = 1 ∧ (1 : Nat) ≠ 0 ∧
      (1 < exC.allocated_memory.length ∧ 1 ∉ exC.freed_memory) ∧
      ∃ s₁ s₂, unmap_seg exC 3 = some s₁ ∧ map_seg s₁ 0 1 = some s₂ ∧
        s₂.registers 0 = 1 :=
  ⟨rfl, by decide, ⟨by decide, by decide⟩,
    unmap_then_map_reuses_id exC 3 0 1 1 rfl (by decide) ⟨by decide, by decide⟩⟩

/-- C9: freeing a live identifier `id ≠ 0` releases the segment's storage
(the slot becomes empty) while the slot stays addressable: the table's length
and every other slot are unchanged, and `id` is pushed onto the free list. -/
theorem unmap_seg_frees_slot (s : State) (c : Fin 8) (id : Nat)
    (hid : s.registers c = id) (h0 : id ≠ 0)
    (hlive : id < s.allocated_memory.length ∧ id ∉ s.freed_memory) :
    ∃ s', unmap_seg s c = some s' ∧
      s'.allocated_memory.length = s.allocated_memory.length ∧
      s'.allocated_memory.get? id = some [] ∧
      (∀ j, j ≠ id → s'.allocated_memory.get? j = s.allocated_memory.get? j) ∧
      s'.freed_memory = s.freed_memory ++ [id] ∧
      s'.registers = s.registers ∧
      s'.prog_counter = s.prog_counter := by
  obtain ⟨hlt, -⟩ := hlive
  refine ⟨{ s with
      allocated_memory := s.allocated_memory.set id []
      freed_memory := s.freed_memory ++ [id] }, ?_, ?_, ?_, ?_, rfl, rfl, rfl⟩
  · unfold unmap_seg
    rw [hid]
    simp [hlt]
  · simp [List.length_set]
  · simpa using List.get?_set_eq_of_lt [] hlt
  · intro j hj
    exact List.get?_set_ne [] s.allocated_memory (Ne.symm hj)

/-- Witness for C9 at the concrete state `exC`. -/
theorem unmap_seg_frees_slot_witness :
    exC.registers 3 = 1 ∧ (1 : Nat) ≠ 0 ∧
      (1 < exC.allocated_memory.length ∧ 1 ∉ exC.freed_memory) ∧
      ∃ s', unmap_seg exC 3 = some s' ∧
        s'.allocated_memory.length = exC.allocated_memory.length ∧
        s'.allocated_memory.get? 1 = some [] ∧
        (∀ j, j ≠ 1 → s'.allocated_memory.get? j = exC.allocated_memory.get? j) ∧
        s'.freed_memory = exC.freed_memory ++ [1] ∧
        s'.registers = exC.registers ∧
        s'.prog_counter = exC.prog_counter :=
  ⟨rfl, by decide, ⟨by decide, by decide⟩,
    unmap_seg_frees_slot exC 3 1 rfl (by decide) ⟨by decide, by decide⟩⟩

/-- C10: Unmap Segment checks no precondition: for any `R[C]` that indexes an
existing slot — identifier 0 and already-freed slots included — it empties
the slot and pushes `R[C]` on the free list; freeing twice pushes the
identifier twice, and freeing identifier 0 empties segment zero, the
executing program. -/
theorem unmap_seg_unchecked (s : State) (c : Fin 8)
    (h : s.registers c < s.allocated_memory.length) :
    ∃ s' s'', unmap_seg s c = some s' ∧
      s'.allocated_memory = s.allocated_memory.set (s.registers c) [] ∧
      s'.freed_memory = s.freed_memory ++ [s.registers c] ∧
      (s.registers c = 0 → s'.allocated_memory.get? 0 = some []) ∧
      unmap_seg s' c = some s'' ∧
      s''.freed_memory = s.freed_memory ++ [s.registers c, s.registers c] := by
  refine ⟨{ s with
      allocated_memory := s.allocated_memory.set (s.registers c) []
      freed_memory := s.freed_memory ++ [s.registers c] }, ?_, ?_, rfl, rfl, ?_, ?_, ?_⟩
  · exact { s with
      allocated_memory := (s.allocated_memory.set (s.registers c) []).set (s.registers c) []
      freed_memory := (s.freed_memory ++ [s.registers c]) ++ [s.registers c] }
  · unfold unmap_seg
    simp [h]
  · intro h0
    rw [h0]
    exact List.get?_set_eq_of_lt [] (h0 ▸ h)
  · unfold unmap_seg
    simp [List.length_set, h]
  · simp

/-- The opcode field of any word is below 16 (it is a 4-bit field). -/
theorem get_OP_lt (w : Nat) : get OP w < 16 := by
  have h : (w >>> 28) &&& 15 ≤ 15 := Nat.and_le_right
  have : get OP w = (w >>> 28) &&& 15 := rfl
  omega

/-- C4: the program counter is incremented by the fetch, before the opcode's
semantics run; hence whenever a dispatch produces a next state, the next
fetch address is `PC + 1` for every opcode except 12, and for opcode 12 it is
the value `R[C]` held at the time of execution. -/
theorem pc_increment_before_execute (s : State) (stdin stdout : List Nat)
    (s' : State) (stdin' stdout' : List Nat) (seg0 : List Nat) (w : Nat)
    (hseg : s.allocated_memory.get? 0 = some seg0)
    (hw : seg0.get? s.prog_counter = some w)
    (hstep : decode_inst s stdin stdout = StepResult.next s' stdin' stdout') :
    (get OP w ≠ 12 → s'.prog_counter = s.prog_counter + 1) ∧
    (get OP w = 12 → s'.prog_counter = s.registers (regIdx (get RC w))) := by
  have hget := get_instruction_of_fetch hseg hw
  unfold decode_inst at hstep
  rw [hget] at hstep
  dsimp only at hstep
  have hlt : get OP w < 16 := get_OP_lt w
  obtain ⟨o, ho⟩ : ∃ o, get OP w = o := ⟨_, rfl⟩
  rw [ho] at hstep hlt ⊢
  interval_cases o
  · dsimp only at hstep
    cases hstep
    exact ⟨fun _ => cmov_prog_counter _ _ _ _, fun hc => by omega⟩
  · dsimp only at hstep
    split at hstep
    · rename_i s2 heq
      cases hstep
      exact ⟨fun _ => seg_load_prog_counter heq, fun hc => by omega⟩
    · cases hstep
  · dsimp only at hstep
    split at hstep
    · rename_i s2 heq
      cases hstep
      exact ⟨fun _ => seg_store_prog_counter heq, fun hc => by omega⟩
    · cases hstep
  · dsimp only at hstep
    cases hstep
    exact ⟨fun _ => rfl, fun hc => by omega⟩
  · dsimp only at hstep
    cases hstep
    exact ⟨fun _ => rfl, fun hc => by omega⟩
  · dsimp only at hstep
    split at hstep
    · rename_i s2 heq
      cases hstep
      exact ⟨fun _ => div_prog_counter heq, fun hc => by omega⟩
    · cases hstep
  · dsimp only at hstep
    cases hstep
    exact ⟨fun _ => rfl, fun hc => by omega⟩
  · dsimp only at hstep
    cases hstep
  · dsimp only at hstep
    split at hstep
    · rename_i s2 heq
      cases hstep
      exact ⟨fun _ => map_seg_prog_counter heq, fun hc => by omega⟩
    · cases hstep
  · dsimp only at hstep
    split at hstep
    · rename_i s2 heq
      cases hstep
      exact ⟨fun _ => unmap_seg_prog_counter heq, fun hc => by omega⟩
    · cases hstep
  · dsimp only at hstep
    split at hstep
    · rename_i s2 bytes heq
      cases hstep
      refine ⟨fun _ => ?_, fun hc => by omega⟩
      rw [output_state_eq heq]
    · cases hstep
  · dsimp only at hstep
    cases hstep
    exact ⟨fun _ => input_prog_counter _ _ _, fun hc => by omega⟩
  · dsimp only at hstep
    split at hstep
    · rename_i s2 heq
      cases hstep
      exact ⟨fun hc => by omega, fun _ => load_prog_prog_counter heq⟩
    · cases hstep
  · dsimp only at hstep
    cases hstep
    exact ⟨fun _ => rfl, fun hc => by omega⟩
  · dsimp only at hstep
    cases hstep
  · dsimp only at hstep
    cases hstep

/-- Witness for C4: the word 9 at the program counter of `exC` decodes to
opcode 0 (not 12), and the dispatched state has program counter 1. -/
theorem pc_increment_before_execute_witness :
    exC.allocated_memory.get? 0 = some [9, 9] ∧
      ([9, 9] : List Nat).get? exC.prog_counter = some 9 ∧
      get OP 9 ≠ 12 ∧
      ∃ s', decode_inst exC [] [] = StepResult.next s' [] [] ∧
        s'.prog_counter = exC.prog_counter + 1 :=
  ⟨rfl, rfl, by decide,
    ⟨cmov { exC with prog_counter := exC.prog_counter + 1 } (regIdx (get RA 9))
        (regIdx (get RB 9)) (regIdx (get RC 9)), rfl,
      (pc_increment_before_execute exC [] [] _ [] [] [9, 9] 9 rfl rfl rfl).1
        (by decide)⟩⟩

/-- XOR with the all-ones width-`n` mask is the arithmetic complement below
`2 ^ n`. -/
theorem xor_allones_eq_sub {n x : Nat} (h : x < 2 ^ n) :
    x ^^^ (2 ^ n - 1) = 2 ^ n - 1 - x := by
  apply Nat.eq_of_testBit_eq
  intro i
  have hsub : 2 ^ n - 1 - x = 2 ^ n - (x + 1) := by omega
  rw [Nat.testBit_xor, Nat.testBit_two_pow_sub_one, hsub,
    Nat.testBit_two_pow_sub_succ h]
  by_cases hi : i < n
  · simp [hi]
  · have hx : x.testBit i = false :=
      Nat.testBit_lt_two_pow
        (lt_of_lt_of_le h (Nat.pow_le_pow_right (by norm_num) (le_of_not_lt hi)))
    simp [hi, hx]

/-- C5: dispatching a fetched word with opcode 3 stores
`(R[B] + R[C]) mod 2 ^ 32` in `R[A]`, opcode 4 stores
`(R[B] * R[C]) mod 2 ^ 32` in `R[A]`, and opcode 6 stores the bitwise
complement of `R[B] AND R[C]` in `R[A]`, for all 32-bit operand values. -/
theorem arith_opcodes_modular (s : State) (stdin stdout : List Nat)
    (s' : State) (stdin' stdout' : List Nat) (seg0 : List Nat) (w : Nat)
    (hseg : s.allocated_memory.get? 0 = some seg0)
    (hw : seg0.get? s.prog_counter = some w)
    (hstep : decode_inst s stdin stdout = StepResult.next s' stdin' stdout') :
    (get OP w = 3 → s'.registers (regIdx (get RA w)) =
      (s.registers (regIdx (get RB w)) + s.registers (regIdx (get RC w))) % 2 ^ 32) ∧
    (get OP w = 4 → s'.registers (regIdx (get RA w)) =
      (s.registers (regIdx (get RB w)) * s.registers (regIdx (get RC w))) % 2 ^ 32) ∧
    (get OP w = 6 →
      s.registers (regIdx (get RB w)) < 2 ^ 32 →
      s.registers (regIdx (get RC w)) < 2 ^ 32 →
      s'.registers (regIdx (get RA w)) =
        2 ^ 32 - 1 -
          (s.registers (regIdx (get RB w)) &&& s.registers (regIdx (get RC w)))) := by
  have hget := get_instruction_of_fetch hseg hw
  unfold decode_inst at hstep
  rw [hget] at hstep
  dsimp only at hstep
  refine ⟨fun h3 => ?_, fun h4 => ?_, fun h6 hb hc => ?_⟩
  · rw [h3] at hstep
    dsimp only at hstep
    cases hstep
    simp [add]
  · rw [h4] at hstep
    dsimp only at hstep
    cases hstep
    simp [mul]
  · rw [h6] at hstep
    dsimp only at hstep
    cases hstep
    have hupd : (b_nand { s with prog_counter := s.prog_counter + 1 }
        (regIdx (get RA w)) (regIdx (get RB w)) (regIdx (get RC w))).registers
          (regIdx (get RA w)) =
        (s.registers (regIdx (get RB w)) &&& s.registers (regIdx (get RC w))) ^^^
          (2 ^ 32 - 1) := by
      simp [b_nand]
    rw [hupd]
    exact xor_allones_eq_sub (lt_of_le_of_lt Nat.and_le_left hb)

/-- Witness for C5: the three words of `exW` are the Add, Multiply and NAND
instructions over registers 0, 1, 2 with `R[1] = 5`, `R[2] = 7`. -/
theorem arith_opcodes_modular_witness :
    (get OP 805306378 = 3 ∧
      ∃ s', decode_inst exW [] [] = StepResult.next s' [] [] ∧
        s'.registers (regIdx (get RA 805306378)) =
          (exW.registers (regIdx (get RB 805306378)) +
            exW.registers (regIdx (get RC 805306378))) % 2 ^ 32) ∧
    (get OP 1073741834 = 4 ∧
      ∃ s', decode_inst exW1 [] [] = StepResult.next s' [] [] ∧
        s'.registers (regIdx (get RA 1073741834)) =
          (exW1.registers (regIdx (get RB 1073741834)) *
            exW1.registers (regIdx (get RC 1073741834))) % 2 ^ 32) ∧
    (get OP 1610612746 = 6 ∧
      exW2.registers (regIdx (get RB 1610612746)) < 2 ^ 32 ∧
      exW2.registers (regIdx (get RC 1610612746)) < 2 ^ 32 ∧
      ∃ s', decode_inst exW2 [] [] = StepResult.next s' [] [] ∧
        s'.registers (regIdx (get RA 1610612746)) =
          2 ^ 32 - 1 -
            (exW2.registers (regIdx (get RB 1610612746)) &&&
              exW2.registers (regIdx (get RC 1610612746)))) :=
  ⟨⟨by decide,
    ⟨add exW1 (regIdx (get RA 805306378))
        (regIdx (get RB 805306378)) (regIdx (get RC 805306378)), rfl,
      (arith_opcodes_modular exW [] [] _ [] []
          [805306378, 1073741834, 1610612746] 805306378 rfl rfl rfl).1 rfl⟩⟩,
   ⟨by decide,
    ⟨mul exW2 (regIdx (get RA 1073741834))
        (regIdx (get RB 1073741834)) (regIdx (get RC 1073741834)), rfl,
      (arith_opcodes_modular exW1 [] [] _ [] []
          [805306378, 1073741834, 1610612746] 1073741834 rfl rfl rfl).2.1 rfl⟩⟩,
   ⟨by decide, by decide, by decide,
    ⟨b_nand exW3 (regIdx (get RA 1610612746))
        (regIdx (get RB 1610612746)) (regIdx (get RC 1610612746)), rfl,
      (arith_opcodes_modular exW2 [] [] _ [] []
          [805306378, 1073741834, 1610612746] 1610612746 rfl rfl rfl).2.2 rfl
        (by decide) (by decide)⟩⟩⟩

/-- C6 (code bug): opcode 10 with `128 ≤ R[C] ≤ 255` does not emit the single
byte `R[C]`: at `R[C] = 200` the code prints the char U+00C8, which reaches
standard output as its UTF-8 encoding, the two bytes 195 and 136.  Values
above 255 do abort, and values below 128 are emitted as the single byte. -/
theorem output_high_byte_utf8 :
    output exD 2 = some (exD, [195, 136]) ∧ [(195 : Nat), 136] ≠ [200] ∧
      output exE 2 = none ∧ output exF 2 = some (exF, [65]) :=
  ⟨rfl, by decide, rfl, rfl⟩

/-- C7: opcode 11 stores the all-ones sentinel `0xFFFFFFFF = 4294967295` in
`R[C]` at end-of-input, and otherwise stores the byte read, consuming it. -/
theorem input_eof_sentinel (s : State) (c : Fin 8) (stdin : List Nat) :
    (stdin = [] → (input s c stdin).1.registers c = 4294967295 ∧
      (input s c stdin).2 = []) ∧
    (∀ byte rest, stdin = byte :: rest → byte ≤ 255 →
      (input s c stdin).1.registers c = byte ∧ (input s c stdin).2 = rest) := by
  constructor
  · rintro rfl
    refine ⟨?_, rfl⟩
    norm_num [input]
  · rintro byte rest rfl hb
    exact ⟨by simp [input], rfl⟩

/-- Witness for C7: end-of-input at `exA`, then a byte 65 followed by 66. -/
theorem input_eof_sentinel_witness :
    ((input exA 2 []).1.registers 2 = 4294967295 ∧ (input exA 2 []).2 = []) ∧
      (65 : Nat) ≤ 255 ∧
      ((input exA 2 [65, 66]).1.registers 2 = 65 ∧
        (input exA 2 [65, 66]).2 = [66]) :=
  ⟨(input_eof_sentinel exA 2 []).1 rfl, by decide,
    (input_eof_sentinel exA 2 [65, 66]).2 65 [66] rfl (by decide)⟩

/-- Witness for C10: freeing identifier 0 of `exB1` twice in a row. -/
theorem unmap_seg_unchecked_witness :
    exB1.registers 0 < exB1.allocated_memory.length ∧
      ∃ s' s'', unmap_seg exB1 0 = some s' ∧
        s'.allocated_memory = exB1.allocated_memory.set (exB1.registers 0) [] ∧
        s'.freed_memory = exB1.freed_memory ++ [exB1.registers 0] ∧
        (exB1.registers 0 = 0 → s'.allocated_memory.get? 0 = some []) ∧
        unmap_seg s' 0 = some s'' ∧
        s''.freed_memory = exB1.freed_memory ++ [exB1.registers 0, exB1.registers 0] :=
  ⟨by decide, unmap_seg_unchecked exB1 0 (by decide)⟩

/-- Four `getD` steps at once: a list extended by four head elements, read
four positions later. -/
theorem getD_cons4 (b0 b1 b2 b3 : Nat) (l : List Nat) (n : Nat) :
    (b0 :: b1 :: b2 :: b3 :: l).getD (n + 4) 0 = l.getD n 0 := by
  have h : n + 4 = n + 1 + 1 + 1 + 1 := by ring
  rw [h, List.getD_cons_succ, List.getD_cons_succ, List.getD_cons_succ,
    List.getD_cons_succ]

/-- The loader turns a `4 * k`-byte buffer into `k` words, word `i` being the
big-endian decode of bytes `4 * i` to `4 * i + 3`. -/
theorem load_spec : ∀ (k : Nat) (buf : List Nat), buf.length = 4 * k →
    (load buf).length = k ∧
    ∀ i, i < k → (load buf).get? i =
      some (2 ^ 24 * buf.getD (4 * i) 0 + 2 ^ 16 * buf.getD (4 * i + 1) 0 +
        2 ^ 8 * buf.getD (4 * i + 2) 0 + buf.getD (4 * i + 3) 0) := by
  intro k
  induction k with
  | zero =>
    intro buf h
    have hb : buf = [] := List.length_eq_zero.mp (by omega)
    subst hb
    exact ⟨rfl, fun i hi => absurd hi (by omega)⟩
  | succ k ih =>
    intro buf h
    obtain ⟨b0, b1, b2, b3, rest, rfl⟩ :
        ∃ b0 b1 b2 b3 rest, buf = b0 :: b1 :: b2 :: b3 :: rest := by
      rcases buf with _ | ⟨b0, _ | ⟨b1, _ | ⟨b2, _ | ⟨b3, rest⟩⟩⟩⟩
      · exfalso; simp at h
      · exfalso; simp at h; omega
      · exfalso; simp at h; omega
      · exfalso; simp at h; omega
      · exact ⟨b0, b1, b2, b3, rest, rfl⟩
    have hrest : rest.length = 4 * k := by
      simp [List.length_cons] at h
      omega
    obtain ⟨ihlen, ihw⟩ := ih rest hrest
    have hload : load (b0 :: b1 :: b2 :: b3 :: rest) =
        (((b0 * 256 + b1) * 256 + b2) * 256 + b3) :: load rest := rfl
    rw [hload]
    constructor
    · simp [ihlen]
    · intro i hi
      cases i with
      | zero =>
        have g0 : (b0 :: b1 :: b2 :: b3 :: rest).getD (4 * 0) 0 = b0 := rfl
        have g1 : (b0 :: b1 :: b2 :: b3 :: rest).getD (4 * 0 + 1) 0 = b1 := rfl
        have g2 : (b0 :: b1 :: b2 :: b3 :: rest).getD (4 * 0 + 2) 0 = b2 := rfl
        have g3 : (b0 :: b1 :: b2 :: b3 :: rest).getD (4 * 0 + 3) 0 = b3 := rfl
        rw [g0, g1, g2, g3, List.get?_cons_zero]
        congr 1
        ring
      | succ i =>
        have e0 : 4 * (i + 1) = 4 * i + 4 := by ring
        have e1 : 4 * i + 4 + 1 = 4 * i + 1 + 4 := by ring
        have e2 : 4 * i + 4 + 2 = 4 * i + 2 + 4 := by ring
        have e3 : 4 * i + 4 + 3 = 4 * i + 3 + 4 := by ring
        rw [e0, e1, e2, e3, getD_cons4, getD_cons4, getD_cons4, getD_cons4,
          List.get?_cons_succ]
        exact ihw i (by omega)

/-- C8: booting a fresh machine on the loader's output of a `4 * k`-byte
buffer installs as segment zero a sequence of exactly `k` words, word `i`
being the big-endian decode of the buffer's bytes `4 * i` to `4 * i + 3`. -/
theorem load_big_endian_words (buf : List Nat) (k : Nat)
    (h : buf.length = 4 * k) :
    (boot_up_instructions State.new (load buf)).allocated_memory.get? 0 =
        some (load buf) ∧
      (load buf).length = k ∧
      ∀ i, i < k → (load buf).get? i =
        some (2 ^ 24 * buf.getD (4 * i) 0 + 2 ^ 16 * buf.getD (4 * i + 1) 0 +
          2 ^ 8 * buf.getD (4 * i + 2) 0 + buf.getD (4 * i + 3) 0) :=
  ⟨rfl, (load_spec k buf h).1, (load_spec k buf h).2⟩

/-- Witness for C8 on the eight-byte buffer `[0, 0, 0, 7, 210, 0, 0, 65]`:
two words, `7` and `0xD2000041 = 3523215425`. -/
theorem load_big_endian_words_witness :
    ([0, 0, 0, 7, 210, 0, 0, 65] : List Nat).length = 4 * 2 ∧
      ((boot_up_instructions State.new
          (load [0, 0, 0, 7, 210, 0, 0, 65])).allocated_memory.get? 0 =
          some (load [0, 0, 0, 7, 210, 0, 0, 65]) ∧
        (load [0, 0, 0, 7, 210, 0, 0, 65]).length = 2 ∧
        ∀ i, i < 2 → (load [0, 0, 0, 7, 210, 0, 0, 65]).get? i =
          some (2 ^ 24 * ([0, 0, 0, 7, 210, 0, 0, 65] : List Nat).getD (4 * i) 0 +
            2 ^ 16 * ([0, 0, 0, 7, 210, 0, 0, 65] : List Nat).getD (4 * i + 1) 0 +
            2 ^ 8 * ([0, 0, 0, 7, 210, 0, 0, 65] : List Nat).getD (4 * i + 2) 0 +
            ([0, 0, 0, 7, 210, 0, 0, 65] : List Nat).getD (4 * i + 3) 0)) :=
  ⟨rfl, load_big_endian_words [0, 0, 0, 7, 210, 0, 0, 65] 2 rfl⟩

end Rum
